import Mathlib

/-
Verification of the metadata logic of pdf_metadata_viewer (src/pdf_meta.py).

The embedding models:
 * parse_pdf_date        - the PDF date display formatter (lines 15-42);
 * extract_metadata      - the metadata accessor (lines 45-84);
 * update_pdf_metadata   - the metadata merger/writer (lines 87-130);
 * the upload size guard of main (lines 247-252).

External collaborators (pikepdf, pytz, Python's int/datetime/strftime) are
modelled at the level the code observes them: a PDF document is a record
with an encryption flag and a document-information dictionary; Python
ints/strings are modelled over ASCII character lists.
-/

namespace PdfMetadataViewer

/-! ### Python string/int primitives (ASCII model) -/

/-- ASCII whitespace recognised by Python's str.strip and int(). -/
def isPySpace (c : Char) : Bool :=
  c.toNat = 32 || c.toNat = 9 || c.toNat = 10 || c.toNat = 13 || c.toNat = 11 || c.toNat = 12

/-- ASCII decimal digit, as recognised by Python's int(). -/
def isPyDigit (c : Char) : Bool :=
  48 ≤ c.toNat && c.toNat ≤ 57

/-- Python str.strip(): remove leading and trailing whitespace. -/
def stripWs (cs : List Char) : List Char :=
  ((cs.dropWhile isPySpace).reverse.dropWhile isPySpace).reverse

/-- Decimal value of a digit list (underscores removed beforehand). -/
def digitsVal (cs : List Char) : Nat :=
  cs.foldl (fun a c => a * 10 + (c.toNat - 48)) 0

/-- Scanner for the digit part of Python's int(): digits with single
underscores allowed between digits.  The Bool argument records whether the
previous character was a digit (so an underscore is currently allowed). -/
def pyIntGo : List Char → Nat → Bool → Option Nat
  | [], acc, prevDigit => if prevDigit then some acc else none
  | c :: rest, acc, prevDigit =>
    if isPyDigit c then pyIntGo rest (acc * 10 + (c.toNat - 48)) true
    else if c = '_' && prevDigit then pyIntGo rest acc false
    else none

/-- Digit part of Python int(): nonempty digit run, optional underscores. -/
def pyIntDigits (cs : List Char) : Option Nat :=
  pyIntGo cs 0 false

/-- Python int() applied to a string (as a character list): optional
surrounding whitespace, optional single sign, then digits. -/
def pyIntList (cs : List Char) : Option Int :=
  match stripWs cs with
  | [] => none
  | c :: rest =>
    if c = '+' then (pyIntDigits rest).map (fun n => (n : Int))
    else if c = '-' then (pyIntDigits rest).map (fun n => -(n : Int))
    else (pyIntDigits (c :: rest)).map (fun n => (n : Int))

/-- Python slice cs[a:b] (for 0 ≤ a ≤ b): clamps at the end of the list. -/
def listSlice (cs : List Char) (a b : Nat) : List Char :=
  (cs.drop a).take (b - a)

/-! ### Calendar arithmetic (model of Python datetime and the pytz
US/Eastern conversion) -/

/-- Gregorian leap year, as datetime uses. -/
def isLeap (y : Nat) : Bool :=
  (y % 4 = 0 && !(y % 100 = 0)) || y % 400 = 0

/-- Days in a month; months are 1-12. -/
def daysInMonth (y m : Nat) : Nat :=
  match m with
  | 1 => 31 | 2 => if isLeap y then 29 else 28 | 3 => 31 | 4 => 30
  | 5 => 31 | 6 => 30 | 7 => 31 | 8 => 31 | 9 => 30 | 10 => 31
  | 11 => 30 | 12 => 31 | _ => 0

/-- Days in the year before the first of month m. -/
def daysBeforeMonth (y m : Nat) : Nat :=
  let base := match m with
    | 1 => 0 | 2 => 31 | 3 => 59 | 4 => 90 | 5 => 120 | 6 => 151 | 7 => 181
    | 8 => 212 | 9 => 243 | 10 => 273 | 11 => 304 | 12 => 334 | _ => 0
  if 3 ≤ m ∧ isLeap y then base + 1 else base

/-- Proleptic-Gregorian ordinal of a date: 0001-01-01 is day 1 (as in
Python's datetime.toordinal).  Only its residue mod 7 is consumed here. -/
def toOrdinal (y m d : Nat) : Nat :=
  365 * (y - 1) + (y - 1) / 4 - (y - 1) / 100 + (y - 1) / 400 + daysBeforeMonth y m + d

/-- Day of month of the first Sunday of month m of year y (0001-01-01 was a
Monday, so a date is a Sunday when its ordinal is divisible by 7). -/
def firstSundayOfMonth (y m : Nat) : Nat :=
  1 + (7 - toOrdinal y m 1 % 7) % 7

/-- Lexicographic key for a moment of a year (all components < 100). -/
def tkey (mo d h mi s : Nat) : Nat :=
  (((mo * 100 + d) * 100 + h) * 100 + mi) * 100 + s

/-- Whether the given UTC moment falls in US daylight-saving time: from the
second Sunday of March 07:00 UTC to the first Sunday of November 06:00 UTC.
This is the current US rule of the tz database's US/Eastern zone, applied
uniformly to every year. -/
def isDSTutc (y mo d h mi s : Nat) : Bool :=
  tkey 3 (firstSundayOfMonth y 3 + 7) 7 0 0 ≤ tkey mo d h mi s &&
  tkey mo d h mi s < tkey 11 (firstSundayOfMonth y 11) 6 0 0

/-- UTC-to-Eastern offset in whole hours: 4 during daylight time, 5 else. -/
def easternOffsetHours (dst : Bool) : Nat :=
  if dst then 4 else 5

/-- The previous calendar day; none below 0001-01-01 (where Python's
astimezone raises OverflowError). -/
def prevDay (y m d : Nat) : Option (Nat × Nat × Nat) :=
  if 2 ≤ d then some (y, m, d - 1)
  else if 2 ≤ m then some (y, m - 1, daysInMonth y (m - 1))
  else if 2 ≤ y then some (y - 1, 12, 31)
  else none

/-- A moment expressed in US Eastern local time. -/
structure EasternTime where
  year : Nat
  month : Nat
  day : Nat
  hour : Nat
  minute : Nat
  second : Nat
  isDst : Bool
deriving DecidableEq

/-- pytz conversion of a UTC moment to US/Eastern: subtract the whole-hour
offset, borrowing a day when the time of day is too small. -/
def utcToEastern (y mo d h mi s : Nat) : Option EasternTime :=
  if easternOffsetHours (isDSTutc y mo d h mi s) ≤ h then
    some ⟨y, mo, d, h - easternOffsetHours (isDSTutc y mo d h mi s), mi, s, isDSTutc y mo d h mi s⟩
  else
    match prevDay y mo d with
    | some (y2, mo2, d2) =>
      some ⟨y2, mo2, d2, h + 24 - easternOffsetHours (isDSTutc y mo d h mi s), mi, s,
            isDSTutc y mo d h mi s⟩
    | none => none

/-- strftime %B month names. -/
def monthName (m : Nat) : String :=
  match m with
  | 1 => "January" | 2 => "February" | 3 => "March" | 4 => "April"
  | 5 => "May" | 6 => "June" | 7 => "July" | 8 => "August"
  | 9 => "September" | 10 => "October" | 11 => "November" | 12 => "December"
  | _ => ""

/-- Two-digit zero padding (strftime %d, %I, %M, %S). -/
def pad2 (n : Nat) : String :=
  if n < 10 then "0" ++ toString n else toString n

/-- 12-hour clock value of an hour (strftime %I). -/
def hour12 (h : Nat) : Nat :=
  if h % 12 = 0 then 12 else h % 12

/-- strftime with format %B %d, %Y at %I:%M:%S %p %Z on an Eastern moment. -/
def fmtDisplay (t : EasternTime) : String :=
  monthName t.month ++ " " ++ pad2 t.day ++ ", " ++ toString t.year ++ " at " ++
  pad2 (hour12 t.hour) ++ ":" ++ pad2 t.minute ++ ":" ++ pad2 t.second ++ " " ++
  (if t.hour < 12 then "AM" else "PM") ++ " " ++ (if t.isDst then "EDT" else "EST")

/-- datetime(year, month, day, hour, minute, second) validation followed by
the UTC localisation, Eastern conversion and strftime of the source; none is
any raised exception. -/
def validateAndFormat (y mo d h mi s : Int) : Option String :=
  if 1 ≤ y ∧ y ≤ 9999 ∧ 1 ≤ mo ∧ mo ≤ 12 ∧
     1 ≤ d ∧ d ≤ (daysInMonth y.toNat mo.toNat : Int) ∧
     0 ≤ h ∧ h ≤ 23 ∧ 0 ≤ mi ∧ mi ≤ 59 ∧ 0 ≤ s ∧ s ≤ 59 then
    (utcToEastern y.toNat mo.toNat d.toNat h.toNat mi.toNat s.toNat).map fmtDisplay
  else none

/-- Body of the try block of parse_pdf_date after the strip and the prefix
removal: the six int() field extractions (missing trailing fields default
to 0), then datetime construction and formatting.  none is any exception. -/
def parseCore (cs : List Char) : Option String :=
  (pyIntList (listSlice cs 0 4)).bind fun y =>
  (pyIntList (listSlice cs 4 6)).bind fun mo =>
  (pyIntList (listSlice cs 6 8)).bind fun d =>
  (if 10 ≤ cs.length then pyIntList (listSlice cs 8 10) else some 0).bind fun h =>
  (if 12 ≤ cs.length then pyIntList (listSlice cs 10 12) else some 0).bind fun mi =>
  (if 14 ≤ cs.length then pyIntList (listSlice cs 12 14) else some 0).bind fun s =>
  validateAndFormat y mo d h mi s

/-- The removal of the leading D: tag (lines 19-20): if the stripped string
starts with D, colon, drop those two characters. -/
def dropDColon (cs : List Char) : List Char :=
  match cs with
  | 'D' :: ':' :: rest => rest
  | _ => cs

/-- parse_pdf_date (src/pdf_meta.py lines 15-42).  Note that the except
branch returns str(date_str), and date_str has already been reassigned to
the stripped, D:-deprefixed string when any later step raises. -/
def parse_pdf_date (s : String) : String :=
  match parseCore (dropDColon (stripWs s.data)) with
  | some out => out
  | none => String.mk (dropDColon (stripWs s.data))

/-- The YYYY field of a 14-digit PDF date body. -/
def fieldY (cs : List Char) : Nat := digitsVal (listSlice cs 0 4)

/-- The MM field of a 14-digit PDF date body. -/
def fieldMo (cs : List Char) : Nat := digitsVal (listSlice cs 4 6)

/-- The DD field of a 14-digit PDF date body. -/
def fieldD (cs : List Char) : Nat := digitsVal (listSlice cs 6 8)

/-- The HH field of a 14-digit PDF date body. -/
def fieldH (cs : List Char) : Nat := digitsVal (listSlice cs 8 10)

/-- The mm field of a 14-digit PDF date body. -/
def fieldMi (cs : List Char) : Nat := digitsVal (listSlice cs 10 12)

/-- The SS field of a 14-digit PDF date body. -/
def fieldS (cs : List Char) : Nat := digitsVal (listSlice cs 12 14)

/-! ### Substring containment (used to state the display claims) -/

/-- Whether the second list is a prefix of the first. -/
def startsWithList : List Char → List Char → Bool
  | _, [] => true
  | [], _ :: _ => false
  | c :: cs, p :: ps => c == p && startsWithList cs ps

/-- Whether p occurs as a contiguous sublist. -/
def hasSub : List Char → List Char → Bool
  | [], p => p.isEmpty
  | c :: cs, p => startsWithList (c :: cs) p || hasSub cs p

/-- Whether pat occurs as a substring of s. -/
def containsSub (s pat : String) : Bool :=
  hasSub s.data pat.data

/-! ### The pikepdf-facing model

A document-information value either stringifies (to the string the code
observes) or raises on str(); a document carries an encryption flag, a flag
for whether accessing pdf.docinfo succeeds, and the docinfo dictionary as an
insertion-ordered association list.  An uploaded byte buffer either opens to
a document, or makes pikepdf.open raise (generically, or NotImplementedError,
which extract_metadata catches separately). -/

/-- A value of the document-information dictionary, as seen through str(). -/
inductive PdfVal where
  | str (s : String)
  | unstringifiable
deriving DecidableEq

/-- A PDF document as the code observes it through pikepdf. -/
structure Pdf where
  encrypted : Bool
  docinfoAccessible : Bool
  docinfo : List (String × PdfVal)
deriving DecidableEq

/-- Raw uploaded bytes: either they open to a document or opening raises. -/
inductive PdfBytes where
  | valid (pdf : Pdf)
  | notImplemented
  | corrupt
deriving DecidableEq

/-- Exceptions of the modelled pikepdf operations. -/
inductive PdfErr where
  | notImplementedFailure
  | openFailure
  | docinfoWriteFailure
deriving DecidableEq

/-- Python dict assignment d[k] = v on an insertion-ordered assoc list:
replace the value at the first occurrence of k, else append. -/
def upsert {α : Type} : List (String × α) → String → α → List (String × α)
  | [], k, v => [(k, v)]
  | (k2, v2) :: rest, k, v =>
    if k2 = k then (k2, v) :: rest else (k2, v2) :: upsert rest k v

/-- Python dict lookup d[k] / membership on an assoc list. -/
def alookup {α : Type} : List (String × α) → String → Option α
  | [], _ => none
  | (k2, v) :: rest, k => if k2 = k then some v else alookup rest k

/-- The extraction loop of extract_metadata (lines 63-69): build a dict from
docinfo in iteration order, skipping entries whose value fails str(). -/
def stringifyDocinfo : List (String × PdfVal) → List (String × String) → List (String × String)
  | [], acc => acc
  | (k, PdfVal.str s) :: rest, acc => stringifyDocinfo rest (upsert acc k s)
  | (_, PdfVal.unstringifiable) :: rest, acc => stringifyDocinfo rest acc

/-- Body of the outer try of extract_metadata; errors are the exceptions
the two except clauses catch, ok none is the encrypted early return. -/
def extractBody (f : PdfBytes) : Except PdfErr (Option (List (String × String))) :=
  match f with
  | PdfBytes.corrupt => Except.error PdfErr.openFailure
  | PdfBytes.notImplemented => Except.error PdfErr.notImplementedFailure
  | PdfBytes.valid pdf =>
    if pdf.encrypted then Except.ok none
    else if pdf.docinfoAccessible then
      Except.ok (some (stringifyDocinfo pdf.docinfo []))
    else
      Except.ok (some [])

/-- extract_metadata (src/pdf_meta.py lines 45-84): every caught exception
becomes None. -/
def extract_metadata (f : PdfBytes) : Option (List (String × String)) :=
  match extractBody f with
  | Except.ok r => r
  | Except.error _ => none

/-- The existing-metadata read of update_pdf_metadata (lines 99-104): one
try around the whole loop, so the first value that fails str() aborts the
read, keeping only the entries already collected. -/
def readExisting : List (String × PdfVal) → List (String × String) → List (String × String)
  | [], acc => acc
  | (k, PdfVal.str s) :: rest, acc => readExisting rest (upsert acc k s)
  | (_, PdfVal.unstringifiable) :: _, acc => acc

/-- The existing_metadata dict of update_pdf_metadata: empty when accessing
pdf.docinfo raises (the except does pass). -/
def existingMetadata (pdf : Pdf) : List (String × String) :=
  if pdf.docinfoAccessible then readExisting pdf.docinfo [] else []

/-- Key normalisation of the update loop (line 110): ensure the leading /. -/
def normKey (k : String) : String :=
  if k.data.head? = some '/' then k else String.mk ('/' :: k.data)

/-- The update loop (lines 107-112): write each non-empty value under its
normalised key, in iteration order. -/
def applyUpdates (d : List (String × PdfVal)) (u : List (String × String)) :
    List (String × PdfVal) :=
  u.foldl (fun acc kv => if kv.2 = "" then acc else upsert acc (normKey kv.1) (PdfVal.str kv.2)) d

/-- The line-116 test: is ModDate explicitly present in the edit request. -/
def hasModDateKey (u : List (String × String)) : Bool :=
  u.any (fun kv => kv.1 == "/ModDate" || kv.1 == "ModDate")

/-- The guarded re-assertion of lines 117-118: write the existing ModDate
reading back when it was found and is non-empty (Python truthiness). -/
def preserveModDate : Option String → List (String × PdfVal) → List (String × PdfVal)
  | some m, d => if m = "" then d else upsert d "/ModDate" (PdfVal.str m)
  | none, d => d

/-- The merged docinfo written before save: the update loop, then the
ModDate re-assertion (lines 114-118) when the request does not mention
ModDate and the original had a nonempty one. -/
def mergeDocinfo (pdf : Pdf) (u : List (String × String)) : List (String × PdfVal) :=
  if hasModDateKey u = false then
    preserveModDate (alookup (existingMetadata pdf) "/ModDate") (applyUpdates pdf.docinfo u)
  else applyUpdates pdf.docinfo u

/-- Body of the try of update_pdf_metadata: opening can raise; a docinfo
write raises when the dictionary is inaccessible and some entry has a
non-empty value; otherwise the merged document is saved (pdf.save with
normalize_content=False keeps docinfo intact). -/
def updateBody (f : PdfBytes) (u : List (String × String)) : Except PdfErr Pdf :=
  match f with
  | PdfBytes.corrupt => Except.error PdfErr.openFailure
  | PdfBytes.notImplemented => Except.error PdfErr.notImplementedFailure
  | PdfBytes.valid pdf =>
    if pdf.docinfoAccessible = false ∧ ∃ kv ∈ u, kv.2 ≠ "" then
      Except.error PdfErr.docinfoWriteFailure
    else Except.ok { pdf with docinfo := mergeDocinfo pdf u }

/-- update_pdf_metadata (src/pdf_meta.py lines 87-130): the returned
document stands for the serialized output buffer; any caught exception
becomes None. -/
def update_pdf_metadata (f : PdfBytes) (u : List (String × String)) : Option Pdf :=
  match updateBody f u with
  | Except.ok pdf => some pdf
  | Except.error _ => none

/-- The stringifiable initial segment of a docinfo list: what the
existing-metadata read collects before its first str() failure, when the
docinfo keys are distinct. -/
def strInit : List (String × PdfVal) → List (String × String)
  | [] => []
  | (k, PdfVal.str s) :: rest => (k, s) :: strInit rest
  | (_, PdfVal.unstringifiable) :: _ => []

/-! ### The upload guard of main -/

/-- Outcome of handling an uploaded file in main. -/
inductive UploadOutcome where
  | rejectedTooLarge
  | extracted (r : Option (List (String × String)))
deriving DecidableEq

/-- The 10MB cap checked before any processing (line 249). -/
def maxUploadBytes : Nat := 10 * 1024 * 1024

/-- The size guard of main (lines 247-252): an oversized upload returns
before extract_metadata is reached. -/
def main_upload (size : Nat) (f : PdfBytes) : UploadOutcome :=
  if size > maxUploadBytes then UploadOutcome.rejectedTooLarge
  else UploadOutcome.extracted (extract_metadata f)

/-! ### Association-list lemmas -/

lemma alookup_upsert_self {α : Type} (l : List (String × α)) (k : String) (v : α) :
    alookup (upsert l k v) k = some v := by
  induction l with
  | nil => simp [upsert, alookup]
  | cons kv rest ih =>
    obtain ⟨k2, v2⟩ := kv
    by_cases h : k2 = k
    · simp [upsert, alookup, h]
    · simp [upsert, alookup, h, ih]

lemma alookup_upsert_ne {α : Type} (l : List (String × α)) (k2 k : String) (v : α)
    (h : k2 ≠ k) : alookup (upsert l k2 v) k = alookup l k := by
  induction l with
  | nil => simp [upsert, alookup, h]
  | cons kv rest ih =>
    obtain ⟨k3, v3⟩ := kv
    by_cases h2 : k3 = k2
    · subst h2
      simp [upsert, alookup, h]
    · simp only [upsert, if_neg h2]
      by_cases h3 : k3 = k
      · simp [alookup, h3]
      · simp [alookup, h3, ih]

lemma upsert_eq_self_of_alookup {α : Type} (l : List (String × α)) (k : String) (v : α)
    (h : alookup l k = some v) : upsert l k v = l := by
  induction l with
  | nil => simp [alookup] at h
  | cons kv rest ih =>
    obtain ⟨k2, v2⟩ := kv
    by_cases h2 : k2 = k
    · simp only [alookup, if_pos h2, Option.some.injEq] at h
      simp [upsert, h2, h]
    · simp only [alookup, if_neg h2] at h
      simp [upsert, h2, ih h]

lemma upsert_append_of_not_mem {α : Type} (l : List (String × α)) (k : String) (v : α)
    (h : k ∉ l.map Prod.fst) : upsert l k v = l ++ [(k, v)] := by
  induction l with
  | nil => simp [upsert]
  | cons kv rest ih =>
    obtain ⟨k2, v2⟩ := kv
    simp only [List.map_cons, List.mem_cons, not_or] at h
    have hne : k2 ≠ k := fun he => h.1 he.symm
    simp [upsert, hne, ih h.2]

/-! ### Whitespace and digit lemmas -/

lemma dropWhile_eq_self_of_all {p : Char → Bool} {l : List Char}
    (h : ∀ c ∈ l, p c = false) : l.dropWhile p = l := by
  cases l with
  | nil => rfl
  | cons c cs => simp [List.dropWhile_cons, h c (List.mem_cons_self c cs)]

lemma stripWs_eq_self {l : List Char} (h : ∀ c ∈ l, isPySpace c = false) :
    stripWs l = l := by
  unfold stripWs
  rw [dropWhile_eq_self_of_all h,
      dropWhile_eq_self_of_all (fun c hc => h c (List.mem_reverse.mp hc)),
      List.reverse_reverse]

lemma isPyDigit_not_space {c : Char} (h : isPyDigit c = true) : isPySpace c = false := by
  simp only [isPyDigit, Bool.and_eq_true, decide_eq_true_eq] at h
  simp only [isPySpace, Bool.or_eq_false_iff, decide_eq_false_iff_not]
  omega

lemma pyIntGo_digits : ∀ (cs : List Char), cs ≠ [] → (∀ c ∈ cs, isPyDigit c = true) →
    ∀ (a : Nat) (b : Bool),
      pyIntGo cs a b = some (cs.foldl (fun x c => x * 10 + (c.toNat - 48)) a) := by
  intro cs
  induction cs with
  | nil => intro h; exact absurd rfl h
  | cons c rest ih =>
    intro _ hdig a b
    have hc : isPyDigit c = true := hdig c (List.mem_cons_self c rest)
    rw [pyIntGo, if_pos hc]
    cases rest with
    | nil => simp [pyIntGo]
    | cons c2 rest2 =>
      rw [ih (by simp) (fun x hx => hdig x (List.mem_cons_of_mem c hx))]
      simp

lemma pyIntList_digits (cs : List Char) (hne : cs ≠ [])
    (hdig : ∀ c ∈ cs, isPyDigit c = true) :
    pyIntList cs = some ((digitsVal cs : Nat) : Int) := by
  obtain ⟨c, rest, rfl⟩ := List.exists_cons_of_ne_nil hne
  have hc : isPyDigit c = true := hdig c (List.mem_cons_self c rest)
  have hplus : ¬(c = '+') := by rintro rfl; exact absurd hc (by decide)
  have hminus : ¬(c = '-') := by rintro rfl; exact absurd hc (by decide)
  unfold pyIntList
  rw [stripWs_eq_self (fun x hx => isPyDigit_not_space (hdig x hx))]
  simp only [if_neg hplus, if_neg hminus]
  rw [show pyIntDigits (c :: rest) = some (digitsVal (c :: rest)) from by
    rw [pyIntDigits, pyIntGo_digits (c :: rest) (by simp) hdig 0 false]; rfl]
  rfl

lemma foldl_digits_lt (cs : List Char) : ∀ a : Nat, (∀ c ∈ cs, isPyDigit c = true) →
    cs.foldl (fun x c => x * 10 + (c.toNat - 48)) a < (a + 1) * 10 ^ cs.length := by
  induction cs with
  | nil => intro a _; simpa using Nat.lt_succ_self a
  | cons c rest ih =>
    intro a hdig
    have hc : c.toNat ≤ 57 := by
      have := hdig c (List.mem_cons_self c rest)
      simp only [isPyDigit, Bool.and_eq_true, decide_eq_true_eq] at this
      omega
    have h1 := ih (a * 10 + (c.toNat - 48)) (fun x hx => hdig x (List.mem_cons_of_mem c hx))
    have h2 : a * 10 + (c.toNat - 48) + 1 ≤ (a + 1) * 10 := by omega
    calc (c :: rest).foldl (fun x c => x * 10 + (c.toNat - 48)) a
        = rest.foldl (fun x c => x * 10 + (c.toNat - 48)) (a * 10 + (c.toNat - 48)) := by
          simp
      _ < (a * 10 + (c.toNat - 48) + 1) * 10 ^ rest.length := h1
      _ ≤ ((a + 1) * 10) * 10 ^ rest.length := Nat.mul_le_mul_right _ h2
      _ = (a + 1) * 10 ^ (c :: rest).length := by
          simp [List.length_cons, Nat.pow_succ]; ring

lemma digitsVal_lt (cs : List Char) (hdig : ∀ c ∈ cs, isPyDigit c = true) :
    digitsVal cs < 10 ^ cs.length := by
  simpa [digitsVal] using foldl_digits_lt cs 0 hdig

/-! ### Substring lemmas -/

lemma startsWithList_append (p r : List Char) : startsWithList (p ++ r) p = true := by
  induction p with
  | nil => simp [startsWithList]
  | cons c cs ih => simp [startsWithList, ih]

lemma hasSub_append_left (l r p : List Char) (h : hasSub r p = true) :
    hasSub (l ++ r) p = true := by
  induction l with
  | nil => simp [h]
  | cons c cs ih => simp [hasSub, ih]

lemma hasSub_here (p r : List Char) : hasSub (p ++ r) p = true := by
  cases p with
  | nil =>
    cases r with
    | nil => rfl
    | cons c cs => simp [hasSub, startsWithList]
  | cons c cs => simp [hasSub, startsWithList, startsWithList_append]

/-! ### Lemmas about the existing-metadata read -/

lemma readExisting_eq_strInit_aux :
    ∀ (d : List (String × PdfVal)) (acc : List (String × String)),
      (d.map Prod.fst).Nodup →
      (∀ k ∈ d.map Prod.fst, k ∉ acc.map Prod.fst) →
      readExisting d acc = acc ++ strInit d := by
  intro d
  induction d with
  | nil => intro acc _ _; simp [readExisting, strInit]
  | cons kv rest ih =>
    intro acc hnodup hdisj
    obtain ⟨k, v⟩ := kv
    cases v with
    | str s =>
      rw [readExisting, upsert_append_of_not_mem acc k s
            (hdisj k (by simp))]
      rw [ih (acc ++ [(k, s)]) (by simpa using (List.nodup_cons.mp (by simpa using hnodup)).2) ?hd]
      · simp [strInit]
      case hd =>
        intro k2 hk2
        simp only [List.map_append, List.mem_append, List.map_cons, List.map_nil,
          List.mem_singleton, not_or]
        refine ⟨hdisj k2 (by simp [hk2]), ?_⟩
        have hk : k ∉ rest.map Prod.fst := (List.nodup_cons.mp (by simpa using hnodup)).1
        intro he
        exact hk (he ▸ hk2)
    | unstringifiable =>
      simp [readExisting, strInit]

lemma readExisting_eq_strInit (d : List (String × PdfVal))
    (hnodup : (d.map Prod.fst).Nodup) : readExisting d [] = strInit d :=
  readExisting_eq_strInit_aux d [] hnodup (by simp)

lemma alookup_strInit (d : List (String × PdfVal)) (k : String) (m : String)
    (h : alookup (strInit d) k = some m) : alookup d k = some (PdfVal.str m) := by
  induction d with
  | nil => simp [strInit, alookup] at h
  | cons kv rest ih =>
    obtain ⟨k2, v⟩ := kv
    cases v with
    | str s =>
      simp only [strInit] at h
      by_cases h2 : k2 = k
      · simp only [alookup, if_pos h2] at h ⊢
        simp only [Option.some.injEq] at h
        rw [h]
      · simp only [alookup, if_neg h2] at h ⊢
        exact ih h
    | unstringifiable =>
      simp [strInit, alookup] at h

/-! ### Lemmas about the update loop -/

lemma normKey_eq_moddate (x : String) (h : normKey x = "/ModDate") :
    x = "ModDate" ∨ x = "/ModDate" := by
  unfold normKey at h
  by_cases hc : x.data.head? = some '/'
  · rw [if_pos hc] at h
    exact Or.inr h
  · rw [if_neg hc] at h
    have hdata : '/' :: x.data = "/ModDate".data := congrArg String.data h
    have h2 : ("/ModDate".data : List Char) = '/' :: "ModDate".data := rfl
    rw [h2] at hdata
    injection hdata with hhead htail
    refine Or.inl ?_
    calc x = String.mk x.data := rfl
      _ = String.mk "ModDate".data := by rw [htail]
      _ = "ModDate" := rfl

lemma alookup_applyUpdates (d : List (String × PdfVal)) (u : List (String × String))
    (k : String) (h : ∀ kv ∈ u, normKey kv.1 ≠ k) :
    alookup (applyUpdates d u) k = alookup d k := by
  induction u generalizing d with
  | nil => rfl
  | cons kv rest ih =>
    have hstep : applyUpdates d (kv :: rest)
        = applyUpdates (if kv.2 = "" then d else upsert d (normKey kv.1) (PdfVal.str kv.2)) rest := by
      simp [applyUpdates]
    rw [hstep, ih _ (fun x hx => h x (List.mem_cons_of_mem kv hx))]
    by_cases hv : kv.2 = ""
    · rw [if_pos hv]
    · rw [if_neg hv]
      exact alookup_upsert_ne d (normKey kv.1) k (PdfVal.str kv.2)
        (h kv (List.mem_cons_self kv rest))

lemma update_eq_some_iff (f : PdfBytes) (u : List (String × String)) (g : Pdf) :
    update_pdf_metadata f u = some g ↔ updateBody f u = Except.ok g := by
  unfold update_pdf_metadata
  cases h : updateBody f u with
  | ok p => simp
  | error e => simp

lemma alookup_existingMetadata (pdf : Pdf) (k : String) (m : String)
    (hnodup : (pdf.docinfo.map Prod.fst).Nodup)
    (h : alookup (existingMetadata pdf) k = some m) :
    alookup pdf.docinfo k = some (PdfVal.str m) := by
  unfold existingMetadata at h
  by_cases hacc : pdf.docinfoAccessible
  · rw [if_pos hacc, readExisting_eq_strInit pdf.docinfo hnodup] at h
    exact alookup_strInit pdf.docinfo k m h
  · rw [if_neg hacc] at h
    simp [alookup] at h

/-- The heart of the frame property: a docinfo key that no edit-request
entry normalises to keeps its original binding through the whole merge. -/
lemma update_preserves_untargeted (pdf g : Pdf) (u : List (String × String)) (k : String)
    (hnodup : (pdf.docinfo.map Prod.fst).Nodup)
    (hnt : ∀ kv ∈ u, normKey kv.1 ≠ k)
    (hupd : update_pdf_metadata (PdfBytes.valid pdf) u = some g) :
    alookup g.docinfo k = alookup pdf.docinfo k := by
  rw [update_eq_some_iff] at hupd
  simp only [updateBody] at hupd
  by_cases hC : pdf.docinfoAccessible = false ∧ ∃ kv ∈ u, kv.2 ≠ ""
  · rw [if_pos hC] at hupd
    exact absurd hupd (by simp)
  · rw [if_neg hC] at hupd
    have hg : g = { pdf with docinfo := mergeDocinfo pdf u } := by
      injection hupd with h1
      exact h1.symm
    subst hg
    show alookup (mergeDocinfo pdf u) k = alookup pdf.docinfo k
    have hd1 := alookup_applyUpdates pdf.docinfo u k hnt
    unfold mergeDocinfo
    by_cases hmk : hasModDateKey u = false
    · rw [if_pos hmk]
      cases hex : alookup (existingMetadata pdf) "/ModDate" with
      | none =>
        rw [preserveModDate]
        exact hd1
      | some m =>
        rw [preserveModDate]
        by_cases hm : m = ""
        · rw [if_pos hm]
          exact hd1
        · rw [if_neg hm]
          by_cases hk : k = "/ModDate"
          · subst hk
            rw [alookup_upsert_self]
            exact (alookup_existingMetadata pdf "/ModDate" m hnodup hex).symm
          · rw [alookup_upsert_ne _ "/ModDate" k _ (fun he => hk he.symm)]
            exact hd1
    · rw [if_neg hmk]
      exact hd1

/-- With an empty edit request the merged docinfo is the original one:
nothing is written, and the ModDate re-assertion (when it fires) rewrites
the value already present. -/
lemma mergeDocinfo_nil (pdf : Pdf) (hnodup : (pdf.docinfo.map Prod.fst).Nodup) :
    mergeDocinfo pdf [] = pdf.docinfo := by
  unfold mergeDocinfo
  have hmk : hasModDateKey ([] : List (String × String)) = false := rfl
  rw [if_pos hmk]
  have happ : applyUpdates pdf.docinfo [] = pdf.docinfo := rfl
  cases hex : alookup (existingMetadata pdf) "/ModDate" with
  | none =>
    rw [preserveModDate]
    exact happ
  | some m =>
    rw [preserveModDate]
    by_cases hm : m = ""
    · rw [if_pos hm]
      exact happ
    · rw [if_neg hm, happ]
      exact upsert_eq_self_of_alookup pdf.docinfo "/ModDate" (PdfVal.str m)
        (alookup_existingMetadata pdf "/ModDate" m hnodup hex)

lemma not_moddate_target_of_hasModDateKey_false (u : List (String × String))
    (hu : hasModDateKey u = false) : ∀ kv ∈ u, normKey kv.1 ≠ "/ModDate" := by
  intro kv hkv he
  rcases normKey_eq_moddate kv.1 he with h1 | h1
  · have ht : hasModDateKey u = true := by
      unfold hasModDateKey
      rw [List.any_eq_true]
      exact ⟨kv, hkv, by rw [h1]; decide⟩
    rw [ht] at hu
    exact absurd hu (by simp)
  · have ht : hasModDateKey u = true := by
      unfold hasModDateKey
      rw [List.any_eq_true]
      exact ⟨kv, hkv, by rw [h1]; decide⟩
    rw [ht] at hu
    exact absurd hu (by simp)

/-! ### Claim theorems -/

/-- C1: for every PDF whose document-information dictionary contains a
ModDate value and every edit request that contains neither the key
'ModDate' nor '/ModDate', the output returned by update_pdf_metadata
carries the original ModDate value unchanged after save: the re-assertion
of lines 114-118 (or the absence of any write to it) keeps it intact. -/
theorem c1_moddate_preserved (pdf g : Pdf) (u : List (String × String))
    (hnodup : (pdf.docinfo.map Prod.fst).Nodup)
    (hmod : alookup pdf.docinfo "/ModDate" ≠ none)
    (hu : hasModDateKey u = false)
    (hupd : update_pdf_metadata (PdfBytes.valid pdf) u = some g) :
    ∃ v, alookup pdf.docinfo "/ModDate" = some v ∧
      alookup g.docinfo "/ModDate" = some v := by
  have hpres := update_preserves_untargeted pdf g u "/ModDate" hnodup
    (not_moddate_target_of_hasModDateKey_false u hu) hupd
  cases hv : alookup pdf.docinfo "/ModDate" with
  | none => exact absurd hv hmod
  | some v => exact ⟨v, rfl, by rw [hpres, hv]⟩

theorem c1_moddate_preserved_witness :
    ∃ v, alookup [("/ModDate", PdfVal.str "D:20250101000000"),
        ("/Author", PdfVal.str "X")] "/ModDate" = some v ∧
      alookup [("/ModDate", PdfVal.str "D:20250101000000"),
        ("/Author", PdfVal.str "X"), ("/Title", PdfVal.str "T")] "/ModDate" = some v :=
  c1_moddate_preserved
    ⟨false, true, [("/ModDate", PdfVal.str "D:20250101000000"), ("/Author", PdfVal.str "X")]⟩
    ⟨false, true, [("/ModDate", PdfVal.str "D:20250101000000"), ("/Author", PdfVal.str "X"),
      ("/Title", PdfVal.str "T")]⟩
    [("Title", "T")] (by decide) (by decide) (by decide) (by decide)

/-- C2 (evaluation at the failing input): the except branch of
parse_pdf_date returns str(date_str) after date_str has been stripped of
its D: prefix, so the malformed input "D:2026" comes back as "2026", not
as the original string that the comment of line 41 and the spec promise. -/
theorem c2_fallback_returns_stripped :
    parse_pdf_date "D:2026" = "2026" ∧ parse_pdf_date "D:2026" ≠ "D:2026" := by
  constructor
  · decide
  · decide

/-- C3: every field present in the original document-information dictionary
that no edit-request entry targets (no key of the request normalises to it)
keeps its exact original binding in the written output. -/
theorem c3_untouched_fields_pass_through (pdf g : Pdf) (u : List (String × String))
    (k : String)
    (hnodup : (pdf.docinfo.map Prod.fst).Nodup)
    (hexist : alookup pdf.docinfo k ≠ none)
    (hnt : ∀ kv ∈ u, normKey kv.1 ≠ k)
    (hupd : update_pdf_metadata (PdfBytes.valid pdf) u = some g) :
    alookup g.docinfo k = alookup pdf.docinfo k :=
  update_preserves_untargeted pdf g u k hnodup hnt hupd

theorem c3_untouched_fields_pass_through_witness :
    alookup [("/Title", PdfVal.str "New Title"), ("/Author", PdfVal.str "X")] "/Author"
      = alookup [("/Title", PdfVal.str "Old"), ("/Author", PdfVal.str "X")] "/Author" :=
  c3_untouched_fields_pass_through
    ⟨false, true, [("/Title", PdfVal.str "Old"), ("/Author", PdfVal.str "X")]⟩
    ⟨false, true, [("/Title", PdfVal.str "New Title"), ("/Author", PdfVal.str "X")]⟩
    [("Title", "New Title")] "/Author" (by decide) (by decide) (by decide) (by decide)

/-- C5: extraction on an encrypted document returns None (no record), the
early return of lines 54-57, before any docinfo access. -/
theorem c5_encrypted_returns_none (pdf : Pdf) (h : pdf.encrypted = true) :
    extract_metadata (PdfBytes.valid pdf) = none := by
  unfold extract_metadata
  simp [extractBody, h]

theorem c5_encrypted_returns_none_witness :
    extract_metadata (PdfBytes.valid ⟨true, true, [("/Title", PdfVal.str "T")]⟩) = none :=
  c5_encrypted_returns_none ⟨true, true, [("/Title", PdfVal.str "T")]⟩ rfl

/-- C6: extraction on a readable, unencrypted document whose
document-information dictionary is empty (or inaccessible) yields the empty
record, which is distinguishable from the None of an outright failure. -/
theorem c6_empty_docinfo_empty_record (pdf : Pdf) (henc : pdf.encrypted = false)
    (hd : pdf.docinfo = []) :
    extract_metadata (PdfBytes.valid pdf) = some [] ∧
    extract_metadata (PdfBytes.valid pdf) ≠ none := by
  have h1 : extract_metadata (PdfBytes.valid pdf) = some [] := by
    unfold extract_metadata
    by_cases hacc : pdf.docinfoAccessible
    · simp [extractBody, henc, hacc, hd, stringifyDocinfo]
    · simp [extractBody, henc, hacc]
  exact ⟨h1, by simp [h1]⟩

theorem c6_empty_docinfo_empty_record_witness :
    extract_metadata (PdfBytes.valid ⟨false, true, []⟩) = some [] ∧
    extract_metadata (PdfBytes.valid ⟨false, true, []⟩) ≠ none :=
  c6_empty_docinfo_empty_record ⟨false, true, []⟩ rfl rfl

/-- C7: saving a readable, unencrypted document through update_pdf_metadata
with an empty edit request succeeds, and extracting from the saved output
returns the same record as extracting from the original. -/
theorem c7_empty_edit_roundtrip (pdf : Pdf) (henc : pdf.encrypted = false)
    (hnodup : (pdf.docinfo.map Prod.fst).Nodup) :
    ∃ g, update_pdf_metadata (PdfBytes.valid pdf) [] = some g ∧
      extract_metadata (PdfBytes.valid g) = extract_metadata (PdfBytes.valid pdf) := by
  refine ⟨pdf, ?_, rfl⟩
  rw [update_eq_some_iff]
  simp only [updateBody]
  rw [if_neg (by simp)]
  rw [mergeDocinfo_nil pdf hnodup]

theorem c7_empty_edit_roundtrip_witness :
    ∃ g, update_pdf_metadata (PdfBytes.valid ⟨false, true,
        [("/Title", PdfVal.str "T"), ("/ModDate", PdfVal.str "D:20250101000000")]⟩) []
      = some g ∧
      extract_metadata (PdfBytes.valid g) = extract_metadata (PdfBytes.valid ⟨false, true,
        [("/Title", PdfVal.str "T"), ("/ModDate", PdfVal.str "D:20250101000000")]⟩) :=
  c7_empty_edit_roundtrip
    ⟨false, true, [("/Title", PdfVal.str "T"), ("/ModDate", PdfVal.str "D:20250101000000")]⟩
    rfl (by decide)

/-- C8: an upload strictly larger than 10MB is rejected before any
extraction: the outcome is the rejection, whatever the file contents. -/
theorem c8_oversize_rejected (size : Nat) (f : PdfBytes)
    (h : size > 10 * 1024 * 1024) :
    main_upload size f = UploadOutcome.rejectedTooLarge := by
  unfold main_upload maxUploadBytes
  rw [if_pos h]

theorem c8_oversize_rejected_witness :
    main_upload (12 * 1024 * 1024) PdfBytes.corrupt = UploadOutcome.rejectedTooLarge :=
  c8_oversize_rejected (12 * 1024 * 1024) PdfBytes.corrupt (by norm_num)

/-- C9: no exception escapes the public interface: every error raised in
the body of extract_metadata or update_pdf_metadata is caught and turned
into None, and every normal body result is passed through as a value. -/
theorem c9_no_exception_escape (f : PdfBytes) (u : List (String × String)) (e : PdfErr) :
    (extractBody f = Except.error e → extract_metadata f = none) ∧
    (∀ r, extractBody f = Except.ok r → extract_metadata f = r) ∧
    (updateBody f u = Except.error e → update_pdf_metadata f u = none) ∧
    (∀ g, updateBody f u = Except.ok g → update_pdf_metadata f u = some g) := by
  refine ⟨?_, ?_, ?_, ?_⟩
  · intro h
    unfold extract_metadata
    rw [h]
  · intro r h
    unfold extract_metadata
    rw [h]
  · intro h
    unfold update_pdf_metadata
    rw [h]
  · intro g h
    unfold update_pdf_metadata
    rw [h]

theorem c9_no_exception_escape_witness :
    extract_metadata PdfBytes.corrupt = none :=
  (c9_no_exception_escape PdfBytes.corrupt [] PdfErr.openFailure).1 rfl

/-- C10: an edit request that maps ModDate (or /ModDate) to the empty
string makes the key count as explicitly present, so no re-assertion
happens, while the empty value is skipped by the write loop: the result is
exactly the bare update of the remaining entries. -/
theorem c10_empty_moddate_edit (pdf : Pdf) (u1 u2 : List (String × String)) (k : String)
    (hk : k = "ModDate" ∨ k = "/ModDate") (hacc : pdf.docinfoAccessible = true) :
    update_pdf_metadata (PdfBytes.valid pdf) (u1 ++ (k, "") :: u2)
      = some { pdf with docinfo := applyUpdates pdf.docinfo (u1 ++ u2) } := by
  rw [update_eq_some_iff]
  simp only [updateBody]
  rw [if_neg (by simp [hacc])]
  have hmk : hasModDateKey (u1 ++ (k, "") :: u2) = true := by
    rcases hk with hk | hk <;> subst hk <;> simp [hasModDateKey]
  have hmerge : mergeDocinfo pdf (u1 ++ (k, "") :: u2)
      = applyUpdates pdf.docinfo (u1 ++ (k, "") :: u2) := by
    unfold mergeDocinfo
    rw [if_neg (by simp [hmk])]
  have happ : applyUpdates pdf.docinfo (u1 ++ (k, "") :: u2)
      = applyUpdates pdf.docinfo (u1 ++ u2) := by
    unfold applyUpdates
    rw [List.foldl_append, List.foldl_append, List.foldl_cons]
    simp
  rw [hmerge, happ]

/-! ### Lemmas for the valid-date display claim -/

lemma data_append (s t : String) : (s ++ t).data = s.data ++ t.data := rfl

lemma pyIntList_slice (cs : List Char) (hdig : ∀ c ∈ cs, isPyDigit c = true)
    (a b : Nat) (hab : a < b) (hb : b ≤ cs.length) :
    pyIntList (listSlice cs a b) = some ((digitsVal (listSlice cs a b) : Nat) : Int) := by
  apply pyIntList_digits
  · have hpos : 0 < (listSlice cs a b).length := by
      simp only [listSlice, List.length_take, List.length_drop]
      omega
    exact List.length_pos.mp hpos
  · intro c hc
    exact hdig c (List.drop_subset a cs (List.take_subset _ _ hc))

lemma slice_digits (cs : List Char) (hdig : ∀ c ∈ cs, isPyDigit c = true) (a b : Nat) :
    ∀ c ∈ listSlice cs a b, isPyDigit c = true :=
  fun c hc => hdig c (List.drop_subset a cs (List.take_subset _ _ hc))

lemma fmtDisplay_contains (t : EasternTime) :
    containsSub (fmtDisplay t) (toString t.year) = true ∧
    containsSub (fmtDisplay t) (monthName t.month) = true ∧
    containsSub (fmtDisplay t) (pad2 t.day) = true := by
  unfold containsSub fmtDisplay
  refine ⟨?_, ?_, ?_⟩
  · simp only [data_append, List.append_assoc]
    apply hasSub_append_left
    apply hasSub_append_left
    apply hasSub_append_left
    apply hasSub_append_left
    exact hasSub_here _ _
  · simp only [data_append, List.append_assoc]
    exact hasSub_here _ _
  · simp only [data_append, List.append_assoc]
    apply hasSub_append_left
    apply hasSub_append_left
    exact hasSub_here _ _

lemma easternOffsetHours_le (b : Bool) : easternOffsetHours b ≤ 5 := by
  cases b <;> simp [easternOffsetHours]

/-- Evaluation of parse_pdf_date on a well-formed 14-digit date string whose
time of day is no earlier than 05:00: the Eastern conversion keeps the
calendar date, and the display is the strftime output of the same year,
month and day. -/
lemma parse_pdf_date_valid14 (cs : List Char) (hlen : cs.length = 14)
    (hdig : ∀ c ∈ cs, isPyDigit c = true)
    (hy : 1 ≤ fieldY cs) (hmo1 : 1 ≤ fieldMo cs) (hmo2 : fieldMo cs ≤ 12)
    (hd1 : 1 ≤ fieldD cs) (hd2 : fieldD cs ≤ daysInMonth (fieldY cs) (fieldMo cs))
    (hh1 : 5 ≤ fieldH cs) (hh2 : fieldH cs ≤ 23)
    (hmi : fieldMi cs ≤ 59) (hs : fieldS cs ≤ 59) :
    parse_pdf_date ("D:" ++ String.mk cs)
      = fmtDisplay ⟨fieldY cs, fieldMo cs, fieldD cs,
          fieldH cs - easternOffsetHours
            (isDSTutc (fieldY cs) (fieldMo cs) (fieldD cs) (fieldH cs) (fieldMi cs) (fieldS cs)),
          fieldMi cs, fieldS cs,
          isDSTutc (fieldY cs) (fieldMo cs) (fieldD cs) (fieldH cs) (fieldMi cs) (fieldS cs)⟩ := by
  have hstrip : stripWs ('D' :: ':' :: cs) = 'D' :: ':' :: cs := by
    apply stripWs_eq_self
    intro c hc
    simp only [List.mem_cons] at hc
    rcases hc with rfl | hc
    · decide
    rcases hc with rfl | hc
    · decide
    · exact isPyDigit_not_space (hdig c hc)
  have hY9999 : fieldY cs ≤ 9999 := by
    have hb := digitsVal_lt (listSlice cs 0 4) (slice_digits cs hdig 0 4)
    have hl : (listSlice cs 0 4).length = 4 := by
      simp [listSlice, hlen]
    rw [hl] at hb
    have h10000 : (10 : Nat) ^ 4 = 10000 := by norm_num
    rw [h10000] at hb
    unfold fieldY
    omega
  have hcore : parseCore cs
      = some (fmtDisplay ⟨fieldY cs, fieldMo cs, fieldD cs,
          fieldH cs - easternOffsetHours
            (isDSTutc (fieldY cs) (fieldMo cs) (fieldD cs) (fieldH cs) (fieldMi cs) (fieldS cs)),
          fieldMi cs, fieldS cs,
          isDSTutc (fieldY cs) (fieldMo cs) (fieldD cs) (fieldH cs) (fieldMi cs) (fieldS cs)⟩) := by
    have h04 : pyIntList (listSlice cs 0 4) = some ((fieldY cs : Nat) : Int) :=
      pyIntList_slice cs hdig 0 4 (by omega) (by omega)
    have h46 : pyIntList (listSlice cs 4 6) = some ((fieldMo cs : Nat) : Int) :=
      pyIntList_slice cs hdig 4 6 (by omega) (by omega)
    have h68 : pyIntList (listSlice cs 6 8) = some ((fieldD cs : Nat) : Int) :=
      pyIntList_slice cs hdig 6 8 (by omega) (by omega)
    have h810 : pyIntList (listSlice cs 8 10) = some ((fieldH cs : Nat) : Int) :=
      pyIntList_slice cs hdig 8 10 (by omega) (by omega)
    have h1012 : pyIntList (listSlice cs 10 12) = some ((fieldMi cs : Nat) : Int) :=
      pyIntList_slice cs hdig 10 12 (by omega) (by omega)
    have h1214 : pyIntList (listSlice cs 12 14) = some ((fieldS cs : Nat) : Int) :=
      pyIntList_slice cs hdig 12 14 (by omega) (by omega)
    unfold parseCore
    rw [h04, h46, h68,
        if_pos (show 10 ≤ cs.length by omega),
        if_pos (show 12 ≤ cs.length by omega),
        if_pos (show 14 ≤ cs.length by omega),
        h810, h1012, h1214]
    simp only [Option.some_bind']
    unfold validateAndFormat
    rw [if_pos ?hcond]
    case hcond =>
      simp only [Int.toNat_natCast]
      refine ⟨by exact_mod_cast hy, by exact_mod_cast hY9999, by exact_mod_cast hmo1,
        by exact_mod_cast hmo2, by exact_mod_cast hd1, by exact_mod_cast hd2,
        by positivity, by exact_mod_cast hh2, by positivity, by exact_mod_cast hmi,
        by positivity, by exact_mod_cast hs⟩
    simp only [Int.toNat_natCast]
    have hoff : easternOffsetHours
        (isDSTutc (fieldY cs) (fieldMo cs) (fieldD cs) (fieldH cs) (fieldMi cs) (fieldS cs))
        ≤ fieldH cs := le_trans (easternOffsetHours_le _) hh1
    unfold utcToEastern
    rw [if_pos hoff]
    rfl
  have hdata : ("D:" ++ String.mk cs).data = 'D' :: ':' :: cs := rfl
  unfold parse_pdf_date
  rw [hdata, hstrip]
  have hdrop : dropDColon ('D' :: ':' :: cs) = cs := rfl
  rw [hdrop, hcore]

/-- C4 (counterexample): D:20260101000000 is a valid PDF date string of the
form D:YYYYMMDDHHMMSS with year field 2026, but parse_pdf_date displays it
as December 31, 2025 at 07:00:00 PM EST: the conversion to US Eastern time
moved the calendar date back, so the display does not contain the year
2026 of that date (nor its month name January, nor its day 01). -/
theorem c4_counterexample_midnight :
    fieldY ("20260101000000".data) = 2026 ∧
    parse_pdf_date "D:20260101000000" = "December 31, 2025 at 07:00:00 PM EST" ∧
    containsSub (parse_pdf_date "D:20260101000000") "2026" = false := by
  refine ⟨by decide, by decide, by decide⟩

/-- C4 (amended): for every valid PDF date string D:YYYYMMDDHHMMSS whose
time of day is at least 05:00:00 (so that the US Eastern conversion, which
subtracts 4 or 5 hours, cannot move the calendar date), the display string
produced by parse_pdf_date contains the correct year, month name, and
two-digit day of that date. -/
theorem c4_valid_date_display (cs : List Char) (hlen : cs.length = 14)
    (hdig : ∀ c ∈ cs, isPyDigit c = true)
    (hy : 1 ≤ fieldY cs) (hmo1 : 1 ≤ fieldMo cs) (hmo2 : fieldMo cs ≤ 12)
    (hd1 : 1 ≤ fieldD cs) (hd2 : fieldD cs ≤ daysInMonth (fieldY cs) (fieldMo cs))
    (hh1 : 5 ≤ fieldH cs) (hh2 : fieldH cs ≤ 23)
    (hmi : fieldMi cs ≤ 59) (hs : fieldS cs ≤ 59) :
    containsSub (parse_pdf_date ("D:" ++ String.mk cs)) (toString (fieldY cs)) = true ∧
    containsSub (parse_pdf_date ("D:" ++ String.mk cs)) (monthName (fieldMo cs)) = true ∧
    containsSub (parse_pdf_date ("D:" ++ String.mk cs)) (pad2 (fieldD cs)) = true := by
  rw [parse_pdf_date_valid14 cs hlen hdig hy hmo1 hmo2 hd1 hd2 hh1 hh2 hmi hs]
  exact fmtDisplay_contains _

theorem c4_valid_date_display_witness :
    containsSub (parse_pdf_date "D:20260211120000") "2026" = true ∧
    containsSub (parse_pdf_date "D:20260211120000") "February" = true ∧
    containsSub (parse_pdf_date "D:20260211120000") "11" = true :=
  c4_valid_date_display ("20260211120000".data) (by decide) (by decide)
    (by decide) (by decide) (by decide) (by decide) (by decide) (by decide)
    (by decide) (by decide) (by decide)

theorem c10_empty_moddate_edit_witness :
    update_pdf_metadata
      (PdfBytes.valid ⟨false, true, [("/ModDate", PdfVal.str "D:20250101000000")]⟩)
      [("Title", "T"), ("ModDate", "")]
    = some ⟨false, true, [("/ModDate", PdfVal.str "D:20250101000000"),
        ("/Title", PdfVal.str "T")]⟩ :=
  c10_empty_moddate_edit
    ⟨false, true, [("/ModDate", PdfVal.str "D:20250101000000")]⟩
    [("Title", "T")] [] "ModDate" (Or.inl rfl) rfl

end PdfMetadataViewer
